import Mathlib

/-!
Shallow embedding of the chip8-go interpreter (src/main.go and the opcode
enumeration file) and verification of the frozen claims about it.

Machine integers are modelled as Nat with explicit reduction where the Go
code wraps: uint8 arithmetic reduces mod 256, uint16 arithmetic mod 65536.
Go array indexing is bounds-checked: an access with an index outside the
array length is a runtime panic, modelled by Option (none = panic).
-/

namespace Chip8Go

/-- Go: uint8 wrapping. -/
def byte (n : Nat) : Nat := n % 256

/-- Go: uint16 wrapping. -/
def word (n : Nat) : Nat := n % 65536

/-- Go: MainMemory is declared as an array of 0xFFF bytes, so the valid
indices are 0x000 .. 0xFFE. -/
def MemSize : Nat := 0xFFF

/-- Point update of a one-argument table (Go array element assignment). -/
def updF (f : Nat → Nat) (i v : Nat) : Nat → Nat :=
  fun j => if j = i then v else f j

/-- Point update of a two-argument table (Go 2-d array element assignment). -/
def upd2 (f : Nat → Nat → Nat) (r k v : Nat) : Nat → Nat → Nat :=
  fun r' k' => if r' = r ∧ k' = k then v else f r' k'

/-- The machine state, field for field the Go struct Chip8 (the GUI window
handle and the IsStopped flag belong to the external collaborators and carry
no core semantics). -/
structure Chip8 where
  MainMemory : Nat → Nat
  Vx : Nat → Nat
  I : Nat
  DT : Nat
  ST : Nat
  PC : Nat
  SP : Nat
  Stack : Nat → Nat
  ScreenState : Nat → Nat → Nat
  KeyPressed : Nat → Bool
  KeyJustReleased : Nat → Bool

/-- Go: read c.MainMemory[a]; panics (none) when a is out of range. -/
def memRead (c : Chip8) (a : Nat) : Option Nat :=
  if a < MemSize then some (c.MainMemory a) else none

/-- Go: write c.MainMemory[a] = v; panics (none) when a is out of range. -/
def memWrite (c : Chip8) (a v : Nat) : Option Chip8 :=
  if a < MemSize then some { c with MainMemory := updF c.MainMemory a v } else none

/-- Go: read c.Stack[i] (16 slots). -/
def stackRead (c : Chip8) (i : Nat) : Option Nat :=
  if i < 16 then some (c.Stack i) else none

/-- Go: write c.Stack[i] = v (16 slots). -/
def stackWrite (c : Chip8) (i v : Nat) : Option Chip8 :=
  if i < 16 then some { c with Stack := updF c.Stack i v } else none

/-- The 36 opcode variants, exactly the Go enumeration. -/
inductive Opcode where
  | opcode00E0
  | opcode00EE
  | opcode1NNN
  | opcode2NNN
  | opcode3XNN
  | opcode4XNN
  | opcode5XY0
  | opcode6XNN
  | opcode7XNN
  | opcode8XY0
  | opcode8XY1
  | opcode8XY2
  | opcode8XY3
  | opcode8XY4
  | opcode8XY5
  | opcode8XY6
  | opcode8XY7
  | opcode8XYE
  | opcode9XY0
  | opcodeANNN
  | opcodeBNNN
  | opcodeCXNN
  | opcodeDXYN
  | opcodeEX9E
  | opcodeEXA1
  | opcodeFX07
  | opcodeFX0A
  | opcodeFX15
  | opcodeFX18
  | opcodeFX1E
  | opcodeFX29
  | opcodeFX33
  | opcodeFX55
  | opcodeFX65
deriving DecidableEq

/-- Go func (c *Chip8) fetch() uint16: reads the two bytes at PC and PC+1,
forms the big-endian word, and (by the deferred statement) adds 2 to PC.
A read outside the memory array is a panic (none); the deferred increment
never takes effect in that case because the process dies. -/
def fetch (c : Chip8) : Option (Nat × Chip8) := do
  let hi ← memRead c (word c.PC)
  let lo ← memRead c (word (c.PC + 1))
  pure (hi * 256 + lo, { c with PC := word (c.PC + 2) })

/-- Go func (c *Chip8) decode(opcode uint16) Opcode: the nested switch,
including the final fallthrough return of opcode00E0 for every word that
matches no case. -/
def decode (opcode : Nat) : Opcode :=
  match opcode &&& 0xF000 with
  | 0x0000 =>
    match opcode &&& 0x00FF with
    | 0x00E0 => .opcode00E0
    | 0x00EE => .opcode00EE
    | _ => .opcode00E0
  | 0x1000 => .opcode1NNN
  | 0x2000 => .opcode2NNN
  | 0x3000 => .opcode3XNN
  | 0x4000 => .opcode4XNN
  | 0x5000 => .opcode5XY0
  | 0x6000 => .opcode6XNN
  | 0x7000 => .opcode7XNN
  | 0x8000 =>
    match opcode &&& 0x000F with
    | 0x0000 => .opcode8XY0
    | 0x0001 => .opcode8XY1
    | 0x0002 => .opcode8XY2
    | 0x0003 => .opcode8XY3
    | 0x0004 => .opcode8XY4
    | 0x0005 => .opcode8XY5
    | 0x0006 => .opcode8XY6
    | 0x0007 => .opcode8XY7
    | 0x000E => .opcode8XYE
    | _ => .opcode00E0
  | 0x9000 => .opcode9XY0
  | 0xA000 => .opcodeANNN
  | 0xB000 => .opcodeBNNN
  | 0xC000 => .opcodeCXNN
  | 0xD000 => .opcodeDXYN
  | 0xE000 =>
    match opcode &&& 0x000F with
    | 0x000E => .opcodeEX9E
    | 0x0001 => .opcodeEXA1
    | _ => .opcode00E0
  | 0xF000 =>
    match opcode &&& 0x00FF with
    | 0x0007 => .opcodeFX07
    | 0x000A => .opcodeFX0A
    | 0x0015 => .opcodeFX15
    | 0x0018 => .opcodeFX18
    | 0x001E => .opcodeFX1E
    | 0x0029 => .opcodeFX29
    | 0x0033 => .opcodeFX33
    | 0x0055 => .opcodeFX55
    | 0x0065 => .opcodeFX65
    | _ => .opcode00E0
  | _ => .opcode00E0

/-- Go func (c *Chip8) clearScreen(): zero every ScreenState row (the GUI
clear call is presentation only). -/
def clearScreen (c : Chip8) : Chip8 :=
  { c with ScreenState := fun _ _ => 0 }

/-- Go func (c *Chip8) exitSubroutine(): no-op when SP is 0, otherwise set
PC to Stack[SP-1] and decrement SP. -/
def exitSubroutine (c : Chip8) : Option Chip8 := do
  if c.SP = 0 then
    pure c
  else
    let addr ← stackRead c (c.SP - 1)
    pure { c with PC := addr, SP := byte (c.SP - 1) }

/-- Go func (c *Chip8) JumpToAddr: PC = opcode & 0x0FFF. -/
def JumpToAddr (c : Chip8) (opcode : Nat) : Chip8 :=
  { c with PC := opcode &&& 0x0FFF }

/-- Go func (c *Chip8) callSubroutine: no-op when SP >= 15; otherwise
increment SP, store the current PC in Stack[SP-1], and set PC to the 12-bit
address of the opcode. -/
def callSubroutine (c : Chip8) (opcode : Nat) : Option Chip8 := do
  if 15 ≤ c.SP then
    pure c
  else
    let c1 := { c with SP := byte (c.SP + 1) }
    let c2 ← stackWrite c1 (c1.SP - 1) c.PC
    pure { c2 with PC := opcode &&& 0x0FFF }

/-- Go func (c *Chip8) checkVxEqlNN: skip the next instruction when Vx = NN. -/
def checkVxEqlNN (c : Chip8) (opcode : Nat) : Chip8 :=
  if c.Vx ((opcode &&& 0x0F00) >>> 8) = opcode &&& 0x00FF
  then { c with PC := word (c.PC + 2) } else c

/-- Go func (c *Chip8) checkVxNotEqlNN: skip the next instruction when Vx ≠ NN. -/
def checkVxNotEqlNN (c : Chip8) (opcode : Nat) : Chip8 :=
  if c.Vx ((opcode &&& 0x0F00) >>> 8) ≠ opcode &&& 0x00FF
  then { c with PC := word (c.PC + 2) } else c

/-- Go func (c *Chip8) checkVxEqlVy: skip the next instruction when Vx = Vy. -/
def checkVxEqlVy (c : Chip8) (opcode : Nat) : Chip8 :=
  if c.Vx ((opcode &&& 0x0F00) >>> 8) = c.Vx ((opcode &&& 0x00F0) >>> 4)
  then { c with PC := word (c.PC + 2) } else c

/-- Go func (c *Chip8) setVxToNN. -/
def setVxToNN (c : Chip8) (opcode : Nat) : Chip8 :=
  { c with Vx := updF c.Vx ((opcode &&& 0x0F00) >>> 8) (opcode &&& 0x00FF) }

/-- Go func (c *Chip8) addAssignToVx: Vx += NN, uint8 wrap, VF untouched. -/
def addAssignToVx (c : Chip8) (opcode : Nat) : Chip8 :=
  let x := (opcode &&& 0x0F00) >>> 8
  { c with Vx := updF c.Vx x (byte (c.Vx x + (opcode &&& 0x00FF))) }

/-- Go func (c *Chip8) setVxToVy. -/
def setVxToVy (c : Chip8) (opcode : Nat) : Chip8 :=
  { c with Vx := updF c.Vx ((opcode &&& 0x0F00) >>> 8) (c.Vx ((opcode &&& 0x00F0) >>> 4)) }

/-- Go func (c *Chip8) bitwiseORAssignVxToVy. -/
def bitwiseORAssignVxToVy (c : Chip8) (opcode : Nat) : Chip8 :=
  let x := (opcode &&& 0x0F00) >>> 8
  let y := (opcode &&& 0x00F0) >>> 4
  { c with Vx := updF c.Vx x (c.Vx x ||| c.Vx y) }

/-- Go func (c *Chip8) bitwiseANDAssignVxToVy. -/
def bitwiseANDAssignVxToVy (c : Chip8) (opcode : Nat) : Chip8 :=
  let x := (opcode &&& 0x0F00) >>> 8
  let y := (opcode &&& 0x00F0) >>> 4
  { c with Vx := updF c.Vx x (c.Vx x &&& c.Vx y) }

/-- Go func (c *Chip8) bitwiseXORAssignVxToVy. -/
def bitwiseXORAssignVxToVy (c : Chip8) (opcode : Nat) : Chip8 :=
  let x := (opcode &&& 0x0F00) >>> 8
  let y := (opcode &&& 0x00F0) >>> 4
  { c with Vx := updF c.Vx x (c.Vx x ^^^ c.Vx y) }

/-- Go func (c *Chip8) addAssignVyToVx (opcode 8XY4): first write the carry
flag into VF (1 when Vy > 0xFF - Vx with the original register values), then
assign Vx = Vx + Vy with the register file as it stands after the flag
write — the Go statement order is preserved exactly. -/
def addAssignVyToVx (c : Chip8) (opcode : Nat) : Chip8 :=
  let x := (opcode &&& 0x0F00) >>> 8
  let y := (opcode &&& 0x00F0) >>> 4
  let c1 := if 0xFF - c.Vx x < c.Vx y
            then { c with Vx := updF c.Vx 0xF 1 }
            else { c with Vx := updF c.Vx 0xF 0 }
  { c1 with Vx := updF c1.Vx x (byte (c1.Vx x + c1.Vx y)) }

/-- Go func (c *Chip8) subAssignVyToVx (opcode 8XY5): VF = 0 when Vy > Vx
else 1, written before the subtraction Vx = Vx - Vy (uint8 wrap), which
reads the register file after the flag write. -/
def subAssignVyToVx (c : Chip8) (opcode : Nat) : Chip8 :=
  let x := (opcode &&& 0x0F00) >>> 8
  let y := (opcode &&& 0x00F0) >>> 4
  let c1 := if c.Vx x < c.Vx y
            then { c with Vx := updF c.Vx 0xF 0 }
            else { c with Vx := updF c.Vx 0xF 1 }
  { c1 with Vx := updF c1.Vx x (byte (c1.Vx x + 256 - byte (c1.Vx y))) }

/-- Go func (c *Chip8) rightShiftVxBy1 (opcode 8XY6): VF = low bit of Vx,
then Vx >>= 1 reading the register file after the flag write. -/
def rightShiftVxBy1 (c : Chip8) (opcode : Nat) : Chip8 :=
  let x := (opcode &&& 0x0F00) >>> 8
  let c1 := { c with Vx := updF c.Vx 0xF (c.Vx x &&& 0x1) }
  { c1 with Vx := updF c1.Vx x (c1.Vx x >>> 1) }

/-- Go func (c *Chip8) setVxToVySubVx (opcode 8XY7): VF = 0 when Vx > Vy
else 1, written before the subtraction Vx = Vy - Vx (uint8 wrap), which
reads the register file after the flag write. -/
def setVxToVySubVx (c : Chip8) (opcode : Nat) : Chip8 :=
  let x := (opcode &&& 0x0F00) >>> 8
  let y := (opcode &&& 0x00F0) >>> 4
  let c1 := if c.Vx y < c.Vx x
            then { c with Vx := updF c.Vx 0xF 0 }
            else { c with Vx := updF c.Vx 0xF 1 }
  { c1 with Vx := updF c1.Vx x (byte (c1.Vx y + 256 - byte (c1.Vx x))) }

/-- Go func (c *Chip8) leftShiftVxBy1 (opcode 8XYE): VF = high bit of Vx
(uint8 value shifted right by 7), then Vx <<= 1 with uint8 wrap, reading the
register file after the flag write. -/
def leftShiftVxBy1 (c : Chip8) (opcode : Nat) : Chip8 :=
  let x := (opcode &&& 0x0F00) >>> 8
  let c1 := { c with Vx := updF c.Vx 0xF (c.Vx x >>> 7) }
  { c1 with Vx := updF c1.Vx x (byte (c1.Vx x * 2)) }

/-- Go func (c *Chip8) checkVxNotEqlVy: skip the next instruction when Vx ≠ Vy. -/
def checkVxNotEqlVy (c : Chip8) (opcode : Nat) : Chip8 :=
  if c.Vx ((opcode &&& 0x0F00) >>> 8) ≠ c.Vx ((opcode &&& 0x00F0) >>> 4)
  then { c with PC := word (c.PC + 2) } else c

/-- Go func (c *Chip8) setIReg: I = opcode & 0x0FFF. -/
def setIReg (c : Chip8) (opcode : Nat) : Chip8 :=
  { c with I := opcode &&& 0x0FFF }

/-- Go func (c *Chip8) pcJump: PC = V0 + (opcode & 0x0FFF), uint16 add. -/
def pcJump (c : Chip8) (opcode : Nat) : Chip8 :=
  { c with PC := word (c.Vx 0 + (opcode &&& 0x0FFF)) }

/-- Go func (c *Chip8) setVxToRand: Vx = rndByte & NN; the random byte drawn
from the host RNG is passed in explicitly. -/
def setVxToRand (c : Chip8) (opcode rndByte : Nat) : Chip8 :=
  { c with Vx := updF c.Vx ((opcode &&& 0x0F00) >>> 8) (byte rndByte &&& (opcode &&& 0x00FF)) }

/-- One pixel of the sprite blit: collision check against the current cell
value, then the XOR toggle — the body of the innermost if in Go drawSprite. -/
def drawBit (c : Chip8) (row col : Nat) : Chip8 :=
  let c1 := if c.ScreenState row col = 1 then { c with Vx := updF c.Vx 0xF 1 } else c
  { c1 with ScreenState := upd2 c1.ScreenState row col (c1.ScreenState row col ^^^ 1) }

/-- The bit positions 0..7 walked by the inner column loop of drawSprite. -/
def bitIdx : List Nat := [0, 1, 2, 3, 4, 5, 6, 7]

/-- The inner column loop of Go drawSprite, iterating the listed bit
positions: a column past the right edge is clipped, an unset sprite bit is
skipped, a set one toggles the cell. -/
def drawSpriteBits (x row pix : Nat) : List Nat → Chip8 → Chip8
  | [], c => c
  | i :: rest, c =>
    let c1 := if 64 ≤ x + i then c
              else if pix &&& (0x80 >>> i) ≠ 0 then drawBit c row (x + i)
              else c
    drawSpriteBits x row pix rest c1

/-- The outer row loop of Go drawSprite: each iteration reads the sprite
byte at I + j (a panic when out of memory range), then skips the row when it
falls below the bottom edge, else runs the column loop. -/
def drawSpriteRows (x y : Nat) : List Nat → Chip8 → Option Chip8
  | [], c => pure c
  | j :: rest, c => do
    let pix ← memRead c (word (c.I + j))
    let c1 := if 32 ≤ y + j then c
              else drawSpriteBits x (y + j) pix bitIdx c
    drawSpriteRows x y rest c1

/-- Go func (c *Chip8) drawSprite (opcode DXYN): positions come from the
register values mod 64 and mod 32 read before VF is reset to 0, then the
row loop runs for the low nibble many rows. -/
def drawSprite (c : Chip8) (opcode : Nat) : Option Chip8 :=
  let x := c.Vx ((opcode &&& 0x0F00) >>> 8) % 64
  let y := c.Vx ((opcode &&& 0x00F0) >>> 4) % 32
  let h := opcode &&& 0x000F
  let c0 := { c with Vx := updF c.Vx 0xF 0 }
  drawSpriteRows x y (List.range h) c0

/-- Whether the cell in column col of the worked row is toggled by the
column loop run with left edge x, sprite byte pix and bit positions bits:
some listed bit i lands on col, stays inside the right edge, and is set in
pix. -/
def bitsHit (x pix : Nat) (bits : List Nat) (col : Nat) : Bool :=
  bits.any (fun i => col == x + i && decide (x + i < 64) && pix &&& (0x80 >>> i) != 0)

/-- Whether the column loop run on the given screen detects a collision:
some listed bit is drawn onto a cell currently holding 1. -/
def bitsCollide (screen : Nat → Nat → Nat) (x row pix : Nat) (bits : List Nat) : Bool :=
  bits.any (fun i => decide (x + i < 64) && pix &&& (0x80 >>> i) != 0 && screen row (x + i) == 1)

/-- Whether the whole sprite blit (rows js, sprite bytes read from mem at
base) toggles the cell at (r, col). -/
def spriteHit (mem : Nat → Nat) (base x y : Nat) (js : List Nat) (r col : Nat) : Bool :=
  js.any (fun j => r == y + j && decide (y + j < 32) && bitsHit x (mem (word (base + j))) bitIdx col)

/-- Whether the whole sprite blit detects a collision against the given
screen. -/
def spriteCollide (mem : Nat → Nat) (base : Nat) (screen : Nat → Nat → Nat) (x y : Nat) (js : List Nat) : Bool :=
  js.any (fun j => decide (y + j < 32) && bitsCollide screen x (y + j) (mem (word (base + j))) bitIdx)

/-- Go func (c *Chip8) keyOpEqlCheck (EX9E): skip when the key numbered by
the value of Vx is held; indexing KeyPressed with a value ≥ 16 is a panic. -/
def keyOpEqlCheck (c : Chip8) (opcode : Nat) : Option Chip8 :=
  let k := c.Vx ((opcode &&& 0x0F00) >>> 8)
  if k < 16 then
    pure (if c.KeyPressed k then { c with PC := word (c.PC + 2) } else c)
  else none

/-- Go func (c *Chip8) keyOpNotEqlCheck (EXA1): skip when the key numbered
by the value of Vx is not held; indexing with a value ≥ 16 is a panic. -/
def keyOpNotEqlCheck (c : Chip8) (opcode : Nat) : Option Chip8 :=
  let k := c.Vx ((opcode &&& 0x0F00) >>> 8)
  if k < 16 then
    pure (if c.KeyPressed k then c else { c with PC := word (c.PC + 2) })
  else none

/-- Go func (c *Chip8) setVxToDelayTimer (FX07). -/
def setVxToDelayTimer (c : Chip8) (opcode : Nat) : Chip8 :=
  { c with Vx := updF c.Vx ((opcode &&& 0x0F00) >>> 8) c.DT }

/-- Go: the comparison c.KeyJustReleased == emptyBoolSlice, true exactly
when none of the 16 flags is set. -/
def keyJustReleasedEmpty (c : Chip8) : Bool :=
  (List.range 16).all (fun i => c.KeyJustReleased i == false)

/-- Go func (c *Chip8) setVxToKeyPress (FX0A): when no key was just
released, rewind PC by 2 (uint16 wrap) and return; otherwise scan keys
0..15 and assign each just-released index to Vx, so Vx ends at the highest
just-released key code and PC keeps its normal post-fetch value. -/
def setVxToKeyPress (c : Chip8) (opcode : Nat) : Chip8 :=
  let x := (opcode &&& 0x0F00) >>> 8
  if keyJustReleasedEmpty c then
    { c with PC := word (c.PC + 65534) }
  else
    let v := (List.range 16).foldl (fun acc i => if c.KeyJustReleased i then i else acc) (c.Vx x)
    { c with Vx := updF c.Vx x v }

/-- Go func (c *Chip8) setDelayTimerToVx (FX15). -/
def setDelayTimerToVx (c : Chip8) (opcode : Nat) : Chip8 :=
  { c with DT := c.Vx ((opcode &&& 0x0F00) >>> 8) }

/-- Go func (c *Chip8) setSoundTimerToVx (FX18). -/
def setSoundTimerToVx (c : Chip8) (opcode : Nat) : Chip8 :=
  { c with ST := c.Vx ((opcode &&& 0x0F00) >>> 8) }

/-- Go func (c *Chip8) addAssignVxToI (FX1E): VF = 1 when the uint16 sum
I + Vx exceeds 0xFFF else 0, written before I is updated; the final I
assignment reads the register file after the flag write. -/
def addAssignVxToI (c : Chip8) (opcode : Nat) : Chip8 :=
  let x := (opcode &&& 0x0F00) >>> 8
  let c1 := if 0xFFF < word (c.I + c.Vx x)
            then { c with Vx := updF c.Vx 0xF 1 }
            else { c with Vx := updF c.Vx 0xF 0 }
  { c1 with I := word (c1.I + c1.Vx x) }

/-- Modelled from the spec: the constants defaultSprite0Loc ..
defaultSpriteFLoc (and the defaultSprites font table they point into) are
defined in a repository file that is not present under src/. Per the spec,
the built-in font stores glyph k at address 5*k, so the location constant
for glyph k is 5*k. -/
def defaultSpriteLoc (k : Nat) : Nat := 5 * k

/-- Go func (c *Chip8) setIToSpriteAddrVx (FX29): a 16-way switch on the
second nibble of the opcode — the register index x, not the value stored in
Vx — assigning I the matching glyph location constant; the (unreachable)
fallthrough leaves I unchanged, as the Go switch has no default case. -/
def setIToSpriteAddrVx (c : Chip8) (opcode : Nat) : Chip8 :=
  match (opcode >>> 8) &&& 0x0F with
  | 0x00 => { c with I := defaultSpriteLoc 0x0 }
  | 0x01 => { c with I := defaultSpriteLoc 0x1 }
  | 0x02 => { c with I := defaultSpriteLoc 0x2 }
  | 0x03 => { c with I := defaultSpriteLoc 0x3 }
  | 0x04 => { c with I := defaultSpriteLoc 0x4 }
  | 0x05 => { c with I := defaultSpriteLoc 0x5 }
  | 0x06 => { c with I := defaultSpriteLoc 0x6 }
  | 0x07 => { c with I := defaultSpriteLoc 0x7 }
  | 0x08 => { c with I := defaultSpriteLoc 0x8 }
  | 0x09 => { c with I := defaultSpriteLoc 0x9 }
  | 0x0a => { c with I := defaultSpriteLoc 0xa }
  | 0x0b => { c with I := defaultSpriteLoc 0xb }
  | 0x0c => { c with I := defaultSpriteLoc 0xc }
  | 0x0d => { c with I := defaultSpriteLoc 0xd }
  | 0x0e => { c with I := defaultSpriteLoc 0xe }
  | 0x0f => { c with I := defaultSpriteLoc 0xf }
  | _ => c

/-- Go func (c *Chip8) storeBCDToI (FX33): hundreds, tens, ones of Vx
written at I, I+1, I+2; each write is bounds-checked. -/
def storeBCDToI (c : Chip8) (opcode : Nat) : Option Chip8 := do
  let val := c.Vx ((opcode &&& 0x0F00) >>> 8)
  let c1 ← memWrite c (word c.I) (val / 100)
  let c2 ← memWrite c1 (word (c.I + 1)) (val / 10 % 10)
  memWrite c2 (word (c.I + 2)) (val % 10)

/-- The loop of Go regDump, iterating the register indices of the listed
positions: memory at regICopy = I + i receives Vx[i]. -/
def regDumpAux (base : Nat) : List Nat → Chip8 → Option Chip8
  | [], c => pure c
  | i :: rest, c => do
    let c1 ← memWrite c (word (base + i)) (c.Vx i)
    regDumpAux base rest c1

/-- Go func (c *Chip8) regDump (FX55): copy V0..Vx into memory starting at
a cursor initialized from I; I itself is not written. -/
def regDump (c : Chip8) (opcode : Nat) : Option Chip8 :=
  regDumpAux c.I (List.range (((opcode &&& 0x0F00) >>> 8) + 1)) c

/-- The loop of Go regLoad: register Vx[i] receives memory at I + i. -/
def regLoadAux (base : Nat) : List Nat → Chip8 → Option Chip8
  | [], c => pure c
  | i :: rest, c => do
    let v ← memRead c (word (base + i))
    regLoadAux base rest { c with Vx := updF c.Vx i v }

/-- Go func (c *Chip8) regLoad (FX65): copy memory starting at a cursor
initialized from I into V0..Vx; I itself is not written. -/
def regLoad (c : Chip8) (opcode : Nat) : Option Chip8 :=
  regLoadAux c.I (List.range (((opcode &&& 0x0F00) >>> 8) + 1)) c

/-- Go func (c *Chip8) execute: dispatch the decoded variant to its
handler, passing the raw word along. The host random byte consumed by CXNN
is an explicit parameter. -/
def execute (c : Chip8) (op : Opcode) (opcodeRaw rndByte : Nat) : Option Chip8 :=
  match op with
  | .opcode00E0 => pure (clearScreen c)
  | .opcode00EE => exitSubroutine c
  | .opcode1NNN => pure (JumpToAddr c opcodeRaw)
  | .opcode2NNN => callSubroutine c opcodeRaw
  | .opcode3XNN => pure (checkVxEqlNN c opcodeRaw)
  | .opcode4XNN => pure (checkVxNotEqlNN c opcodeRaw)
  | .opcode5XY0 => pure (checkVxEqlVy c opcodeRaw)
  | .opcode6XNN => pure (setVxToNN c opcodeRaw)
  | .opcode7XNN => pure (addAssignToVx c opcodeRaw)
  | .opcode8XY0 => pure (setVxToVy c opcodeRaw)
  | .opcode8XY1 => pure (bitwiseORAssignVxToVy c opcodeRaw)
  | .opcode8XY2 => pure (bitwiseANDAssignVxToVy c opcodeRaw)
  | .opcode8XY3 => pure (bitwiseXORAssignVxToVy c opcodeRaw)
  | .opcode8XY4 => pure (addAssignVyToVx c opcodeRaw)
  | .opcode8XY5 => pure (subAssignVyToVx c opcodeRaw)
  | .opcode8XY6 => pure (rightShiftVxBy1 c opcodeRaw)
  | .opcode8XY7 => pure (setVxToVySubVx c opcodeRaw)
  | .opcode8XYE => pure (leftShiftVxBy1 c opcodeRaw)
  | .opcode9XY0 => pure (checkVxNotEqlVy c opcodeRaw)
  | .opcodeANNN => pure (setIReg c opcodeRaw)
  | .opcodeBNNN => pure (pcJump c opcodeRaw)
  | .opcodeCXNN => pure (setVxToRand c opcodeRaw rndByte)
  | .opcodeDXYN => drawSprite c opcodeRaw
  | .opcodeEX9E => keyOpEqlCheck c opcodeRaw
  | .opcodeEXA1 => keyOpNotEqlCheck c opcodeRaw
  | .opcodeFX07 => pure (setVxToDelayTimer c opcodeRaw)
  | .opcodeFX0A => pure (setVxToKeyPress c opcodeRaw)
  | .opcodeFX15 => pure (setDelayTimerToVx c opcodeRaw)
  | .opcodeFX18 => pure (setSoundTimerToVx c opcodeRaw)
  | .opcodeFX1E => pure (addAssignVxToI c opcodeRaw)
  | .opcodeFX29 => pure (setIToSpriteAddrVx c opcodeRaw)
  | .opcodeFX33 => storeBCDToI c opcodeRaw
  | .opcodeFX55 => regDump c opcodeRaw
  | .opcodeFX65 => regLoad c opcodeRaw

/-- One iteration of Go ExecuteCPU: fetch, decode, execute. -/
def cycle (c : Chip8) (rndByte : Nat) : Option Chip8 := do
  let (opcode, c1) ← fetch c
  execute c1 (decode opcode) opcode rndByte

/-- Stated from the spec, not the source: the 36 known opcode patterns of
the decoder table in spec section 4.1 — a top nibble plus, where the table
lists one, a disambiguating sub-field (low byte 0xE0/0xEE for 0x0; low
nibble 0 for 0x5 and 0x9; low nibble 0-7 or 0xE for 0x8; low byte 0x9E or
0xA1 for 0xE; one of eight listed low bytes for 0xF). -/
def isKnownOpcodeWord (w : Nat) : Bool :=
  match w &&& 0xF000 with
  | 0x0000 => w &&& 0x00FF == 0xE0 || w &&& 0x00FF == 0xEE
  | 0x1000 => true
  | 0x2000 => true
  | 0x3000 => true
  | 0x4000 => true
  | 0x5000 => w &&& 0x000F == 0
  | 0x6000 => true
  | 0x7000 => true
  | 0x8000 => [0, 1, 2, 3, 4, 5, 6, 7, 0xE].contains (w &&& 0x000F)
  | 0x9000 => w &&& 0x000F == 0
  | 0xA000 => true
  | 0xB000 => true
  | 0xC000 => true
  | 0xD000 => true
  | 0xE000 => w &&& 0x00FF == 0x9E || w &&& 0x00FF == 0xA1
  | 0xF000 => [0x07, 0x0A, 0x15, 0x18, 0x1E, 0x29, 0x33, 0x55, 0x65].contains (w &&& 0x00FF)
  | _ => false

/-- The all-zero machine state, used to build concrete test states. -/
def zeroChip8 : Chip8 where
  MainMemory := fun _ => 0
  Vx := fun _ => 0
  I := 0
  DT := 0
  ST := 0
  PC := 0
  SP := 0
  Stack := fun _ => 0
  ScreenState := fun _ _ => 0
  KeyPressed := fun _ => false
  KeyJustReleased := fun _ => false

/-- Concrete state for the C1 evaluation: 15 return addresses pushed. -/
def callFullState : Chip8 := { zeroChip8 with SP := 15, PC := 0x400 }

/-- Concrete state for the C1 evaluation: 14 return addresses pushed. -/
def callRoomState : Chip8 := { zeroChip8 with SP := 14, PC := 0x400 }

/-- Concrete state for the C2 evaluation: PC at 0x200 over a zeroed program
(instruction word 0x0000) with the pixel at row 0, column 0 switched on. -/
def unknownWordState : Chip8 :=
  { zeroChip8 with PC := 0x200, ScreenState := upd2 zeroChip8.ScreenState 0 0 1 }

/-- Concrete state for the C4 evaluation: register V1 holds 2. -/
def fontState : Chip8 := { zeroChip8 with Vx := updF zeroChip8.Vx 1 2 }

/-- Concrete state for the C5 witness: V0 = 0x05, V1 = 0x0A. -/
def subState : Chip8 := { zeroChip8 with Vx := updF (updF zeroChip8.Vx 0 5) 1 0x0A }

/-- Concrete state for the C6 witness: V0 = 0xFF, V1 = 0x01. -/
def addOverflowState : Chip8 :=
  { zeroChip8 with Vx := updF (updF zeroChip8.Vx 0 0xFF) 1 1 }

/-- Concrete state for the C6 counterexample: V0 = 1 and VF = 5, so VF is
the y operand of ADD V0,VF. -/
def addVFState : Chip8 := { zeroChip8 with Vx := updF (updF zeroChip8.Vx 0 1) 0xF 5 }

/-- Concrete state for the C7 witness: one sprite byte 0x80 at address 0,
I = 0, all registers zero. -/
def drawState : Chip8 := { zeroChip8 with MainMemory := updF zeroChip8.MainMemory 0 0x80 }

/-- Concrete state for the C8 witness: V0 = 7, V1 = 9, I = 0x300. -/
def dumpState : Chip8 :=
  { zeroChip8 with Vx := updF (updF zeroChip8.Vx 0 7) 1 9, I := 0x300 }

/-- Program bytes for the C9 and C10 witnesses: the word 0xF10A at 0x200. -/
def keyWaitMem : Nat → Nat := updF (updF zeroChip8.MainMemory 0x200 0xF1) 0x201 0x0A

/-- Concrete state for the C9 witness: LD V1,K at PC = 0x200 and key 3 just
released. -/
def keyWaitState : Chip8 :=
  { zeroChip8 with MainMemory := keyWaitMem, PC := 0x200,
                   KeyJustReleased := fun i => i = 3 }

/-- Concrete state for the C10 witness: word 0xF10A at PC = 0x200. -/
def fetchState : Chip8 := { zeroChip8 with MainMemory := keyWaitMem, PC := 0x200 }

/-- C1: the claim says a state with fewer than 16 pushed return addresses
accepts a CALL, so that sixteen nested CALLs succeed and only a seventeenth
is ignored. The code guards with SP >= 15: at SP = 15 — only 15 addresses
pushed — CALL 0x345 already leaves the whole state untouched, while at
SP = 14 it still pushes; the sixteenth nested CALL is the one that is
silently dropped, and stack slot 15 is never used. -/
theorem C1_call_overflow_off_by_one :
    callSubroutine callFullState 0x2345 = some callFullState ∧
    callFullState.SP = 15 ∧
    (callSubroutine callRoomState 0x2345).map Chip8.SP = some 15 ∧
    (callSubroutine callRoomState 0x2345).map Chip8.PC = some 0x345 ∧
    (callSubroutine callRoomState 0x2345).map (fun s => s.Stack 14) = some 0x400 :=
  ⟨rfl, rfl, rfl, rfl, rfl⟩

/-- C2: the claim says a word matching none of the 36 opcode patterns
executes as a silent no-op that changes nothing but PC. The decoder instead
returns opcode00E0 on every unmatched word, so the cycle runs CLS: on the
word 0x0000 (matching no pattern) the lit pixel at (0,0) is wiped while PC
advances by 2 — the unknown word is aliased to the clear-screen opcode. -/
theorem C2_unknown_word_runs_cls :
    isKnownOpcodeWord 0x0000 = false ∧
    decode 0x0000 = Opcode.opcode00E0 ∧
    unknownWordState.ScreenState 0 0 = 1 ∧
    (cycle unknownWordState 0).map (fun s => s.ScreenState 0 0) = some 0 ∧
    (cycle unknownWordState 0).map Chip8.PC = some 0x202 :=
  ⟨by decide, by decide, rfl, rfl, rfl⟩

/-- C3: the claim says all 4096 addresses 0x000-0xFFF are valid memory
indices, so fetch at PC = 0xFFE completes. MainMemory is declared with
length 0xFFF = 4095, so address 0xFFF is out of bounds: the read of the low
instruction byte at 0xFFF panics and fetch fails. -/
theorem C3_memory_is_4095_bytes :
    memRead { zeroChip8 with PC := 0xFFE } 0xFFE = some 0 ∧
    memRead { zeroChip8 with PC := 0xFFE } 0xFFF = none ∧
    fetch { zeroChip8 with PC := 0xFFE } = none :=
  ⟨rfl, rfl, rfl⟩

/-- C4: the claim says LD I,F(Vx) sets I = 5 * (Vx mod 16), the glyph
address for the value stored in Vx. The handler switches on the register
index nibble of the opcode and never reads the register: with V1 = 2,
opcode 0xF129 sets I to glyph 1's address 5 instead of glyph 2's address
10. -/
theorem C4_font_addr_ignores_register_value :
    fontState.Vx 1 = 2 ∧
    (setIToSpriteAddrVx fontState 0xF129).I = 5 ∧
    5 * (fontState.Vx 1 % 16) = 10 :=
  ⟨rfl, rfl, rfl⟩

/-- C5: SUB Vx,Vy (8XY5) sets Vx = (Vx - Vy) mod 256 with VF = 0 exactly
when Vy > Vx, and SUBN Vx,Vy (8XY7) sets Vx = (Vy - Vx) mod 256 with
VF = 0 exactly when Vx > Vy, for register indices x, y other than 0xF and
byte register values. -/
theorem C5_sub_subn_borrow (c : Chip8) (op x y : Nat)
    (hx : (op &&& 0x0F00) >>> 8 = x) (hy : (op &&& 0x00F0) >>> 4 = y)
    (hxF : x ≠ 0xF) (hyF : y ≠ 0xF)
    (hvx : c.Vx x < 256) (hvy : c.Vx y < 256) :
    ((subAssignVyToVx c op).Vx x = (c.Vx x + 256 - c.Vx y) % 256 ∧
      (subAssignVyToVx c op).Vx 0xF = if c.Vx x < c.Vx y then 0 else 1) ∧
    ((setVxToVySubVx c op).Vx x = (c.Vx y + 256 - c.Vx x) % 256 ∧
      (setVxToVySubVx c op).Vx 0xF = if c.Vx y < c.Vx x then 0 else 1) := by
  simp only [subAssignVyToVx, setVxToVySubVx, hx, hy]
  refine ⟨?_, ?_⟩
  · by_cases h : c.Vx x < c.Vx y <;>
      simp [h, updF, byte, hxF, Ne.symm hxF, hyF, Ne.symm hyF,
        Nat.mod_eq_of_lt hvx, Nat.mod_eq_of_lt hvy]
  · by_cases h : c.Vx y < c.Vx x <;>
      simp [h, updF, byte, hxF, Ne.symm hxF, hyF, Ne.symm hyF,
        Nat.mod_eq_of_lt hvx, Nat.mod_eq_of_lt hvy]

/-- C5 witness: SUB V0,V1 and SUBN V0,V1 at V0 = 0x05, V1 = 0x0A; in
particular (5 - 10) mod 256 = 0xFB with VF = 0 for SUB, matching the
spec's worked example. -/
theorem C5_sub_subn_borrow_witness :
    ((subAssignVyToVx subState 0x8015).Vx 0 = (subState.Vx 0 + 256 - subState.Vx 1) % 256 ∧
      (subAssignVyToVx subState 0x8015).Vx 0xF = if subState.Vx 0 < subState.Vx 1 then 0 else 1) ∧
    ((setVxToVySubVx subState 0x8015).Vx 0 = (subState.Vx 1 + 256 - subState.Vx 0) % 256 ∧
      (setVxToVySubVx subState 0x8015).Vx 0xF = if subState.Vx 1 < subState.Vx 0 then 0 else 1) :=
  C5_sub_subn_borrow subState 0x8015 0 1 (by decide) (by decide) (by decide)
    (by decide) (by decide) (by decide)

/-- C6 counterexample: the claim quantifies over every register index pair,
but with y = 0xF the carry flag is written into VF before the sum reads it:
from V0 = 1, VF = 5, ADD V0,VF (opcode 0x80F4) leaves V0 = 1, not
(1 + 5) mod 256 = 6. -/
theorem C6_add_with_vf_operand_counterexample :
    addVFState.Vx 0 = 1 ∧ addVFState.Vx 0xF = 5 ∧
    (addAssignVyToVx addVFState 0x80F4).Vx 0 ≠
      (addVFState.Vx 0 + addVFState.Vx 0xF) % 256 := by
  refine ⟨rfl, rfl, ?_⟩
  decide

/-- C6 (amended to register indices x, y ≠ 0xF): ADD Vx,Vy (8XY4) sets
Vx = (Vx + Vy) mod 256 and VF = 1 exactly when Vx + Vy > 255, else 0, for
byte register values. -/
theorem C6_add_carry (c : Chip8) (op x y : Nat)
    (hx : (op &&& 0x0F00) >>> 8 = x) (hy : (op &&& 0x00F0) >>> 4 = y)
    (hxF : x ≠ 0xF) (hyF : y ≠ 0xF) (hvx : c.Vx x < 256) :
    (addAssignVyToVx c op).Vx x = (c.Vx x + c.Vx y) % 256 ∧
    (addAssignVyToVx c op).Vx 0xF = if 255 < c.Vx x + c.Vx y then 1 else 0 := by
  simp only [addAssignVyToVx, hx, hy]
  by_cases h : 0xFF - c.Vx x < c.Vx y
  · have h' : 255 < c.Vx x + c.Vx y := by omega
    simp [h, h', updF, byte, hxF, Ne.symm hxF, hyF, Ne.symm hyF]
  · have h' : ¬ 255 < c.Vx x + c.Vx y := by omega
    simp [h, h', updF, byte, hxF, Ne.symm hxF, hyF, Ne.symm hyF]

/-- C6 witness: ADD V0,V1 at V0 = 0xFF, V1 = 0x01 wraps to V0 = 0x00 with
VF = 1, matching the spec's worked example. -/
theorem C6_add_carry_witness :
    (addAssignVyToVx addOverflowState 0x8014).Vx 0 =
      (addOverflowState.Vx 0 + addOverflowState.Vx 1) % 256 ∧
    (addAssignVyToVx addOverflowState 0x8014).Vx 0xF =
      if 255 < addOverflowState.Vx 0 + addOverflowState.Vx 1 then 1 else 0 :=
  C6_add_carry addOverflowState 0x8014 0 1 (by decide) (by decide) (by decide)
    (by decide) (by decide)

/-- Effect of the regDump loop over a duplicate-free index list whose
memory targets are in range: every listed register value lands at base + i,
every other address is untouched, and the registers and I are unchanged. -/
theorem regDumpAux_spec (base : Nat) (l : List Nat) (c : Chip8)
    (hb : ∀ i ∈ l, base + i < MemSize) (hnd : l.Nodup) :
    ∃ c', regDumpAux base l c = some c' ∧
      c'.Vx = c.Vx ∧ c'.I = c.I ∧
      (∀ i ∈ l, c'.MainMemory (base + i) = c.Vx i) ∧
      (∀ a, (∀ i ∈ l, a ≠ base + i) → c'.MainMemory a = c.MainMemory a) := by
  induction l generalizing c with
  | nil =>
    exact ⟨c, rfl, rfl, rfl, by simp, fun a _ => rfl⟩
  | cons j t ih =>
    have hj : base + j < MemSize := hb j (List.mem_cons_self j t)
    have hw : word (base + j) = base + j := by
      have : MemSize = 4095 := rfl
      unfold word
      omega
    have hjt : j ∉ t := (List.nodup_cons.mp hnd).1
    obtain ⟨c', he, hVx, hI, hin, hout⟩ :=
      ih { c with MainMemory := updF c.MainMemory (base + j) (c.Vx j) }
        (fun i hi => hb i (List.mem_cons_of_mem j hi)) (List.nodup_cons.mp hnd).2
    refine ⟨c', ?_, hVx, hI, ?_, ?_⟩
    · simp only [regDumpAux, memWrite, hw, if_pos hj, Option.some_bind]
      exact he
    · intro i hi
      rcases List.mem_cons.mp hi with rfl | hit
      · have hne : ∀ i' ∈ t, base + i ≠ base + i' := by
          intro i' hi' heq
          have hii : i = i' := by omega
          exact hjt (hii ▸ hi')
        have := hout (base + i) hne
        rw [this]
        simp [updF]
      · have := hin i hit
        rw [this]
    · intro a ha
      have hat : ∀ i ∈ t, a ≠ base + i := fun i hi => ha i (List.mem_cons_of_mem j hi)
      rw [hout a hat]
      have haj : a ≠ base + j := ha j (List.mem_cons_self j t)
      simp [updF, haj]

/-- Effect of the regLoad loop over a duplicate-free index list whose
memory sources are in range: every listed register receives the byte at
base + i, every other register is untouched, and memory and I are
unchanged. -/
theorem regLoadAux_spec (base : Nat) (l : List Nat) (c : Chip8)
    (hb : ∀ i ∈ l, base + i < MemSize) (hnd : l.Nodup) :
    ∃ c', regLoadAux base l c = some c' ∧
      c'.MainMemory = c.MainMemory ∧ c'.I = c.I ∧
      (∀ i ∈ l, c'.Vx i = c.MainMemory (base + i)) ∧
      (∀ v, (∀ i ∈ l, v ≠ i) → c'.Vx v = c.Vx v) := by
  induction l generalizing c with
  | nil =>
    exact ⟨c, rfl, rfl, rfl, by simp, fun v _ => rfl⟩
  | cons j t ih =>
    have hj : base + j < MemSize := hb j (List.mem_cons_self j t)
    have hw : word (base + j) = base + j := by
      have : MemSize = 4095 := rfl
      unfold word
      omega
    have hjt : j ∉ t := (List.nodup_cons.mp hnd).1
    obtain ⟨c', he, hMem, hI, hin, hout⟩ :=
      ih { c with Vx := updF c.Vx j (c.MainMemory (base + j)) }
        (fun i hi => hb i (List.mem_cons_of_mem j hi)) (List.nodup_cons.mp hnd).2
    refine ⟨c', ?_, hMem, hI, ?_, ?_⟩
    · simp only [regLoadAux, memRead, hw, if_pos hj, Option.some_bind]
      exact he
    · intro i hi
      rcases List.mem_cons.mp hi with rfl | hit
      · have hne : ∀ i' ∈ t, i ≠ i' := by
          intro i' hi' heq
          exact hjt (heq ▸ hi')
        rw [hout i hne]
        simp [updF]
      · rw [hin i hit]
    · intro v hv
      have hvt : ∀ i ∈ t, v ≠ i := fun i hi => hv i (List.mem_cons_of_mem j hi)
      rw [hout v hvt]
      have hvj : v ≠ j := hv j (List.mem_cons_self j t)
      simp [updF, hvj]

/-- C8: reg dump LD [I],Vx (FX55) followed by reg load LD Vx,[I] (FX65)
reproduces the original contents of V0..Vx, and neither operation modifies
the I register, whenever the touched addresses I..I+x lie inside the
memory array. -/
theorem C8_reg_dump_load_roundtrip (c : Chip8) (op X : Nat)
    (hX : (op &&& 0x0F00) >>> 8 = X) (hb : c.I + X < MemSize) :
    ∃ c1 c2, regDump c op = some c1 ∧ regLoad c1 op = some c2 ∧
      c1.I = c.I ∧ c2.I = c.I ∧ (∀ i, i ≤ X → c2.Vx i = c.Vx i) := by
  have hb1 : ∀ i ∈ List.range (X + 1), c.I + i < MemSize := by
    intro i hi
    have := List.mem_range.mp hi
    omega
  obtain ⟨c1, he1, hVx1, hI1, hm_in, hm_out⟩ :=
    regDumpAux_spec c.I (List.range (X + 1)) c hb1 (List.nodup_range _)
  have hb2 : ∀ i ∈ List.range (X + 1), c1.I + i < MemSize := by
    intro i hi
    rw [hI1]
    exact hb1 i hi
  obtain ⟨c2, he2, hm2, hI2, hv_in, hv_out⟩ :=
    regLoadAux_spec c1.I (List.range (X + 1)) c1 hb2 (List.nodup_range _)
  refine ⟨c1, c2, ?_, ?_, hI1, by rw [hI2, hI1], ?_⟩
  · unfold regDump
    rw [hX]
    exact he1
  · unfold regLoad
    rw [hX]
    exact he2
  · intro i hiX
    have hmem : i ∈ List.range (X + 1) := List.mem_range.mpr (by omega)
    rw [hv_in i hmem, hI1, hm_in i hmem]

/-- C8 witness: dump then load of V0..V2 at I = 0x300 from V0 = 7, V1 = 9
restores the registers and leaves I at 0x300. -/
theorem C8_reg_dump_load_roundtrip_witness :
    ∃ c1 c2, regDump dumpState 0xF255 = some c1 ∧ regLoad c1 0xF255 = some c2 ∧
      c1.I = dumpState.I ∧ c2.I = dumpState.I ∧
      (∀ i, i ≤ 2 → c2.Vx i = dumpState.Vx i) :=
  C8_reg_dump_load_roundtrip dumpState 0xF255 2 (by decide) (by decide)

/-- Bool any over the same list with pointwise equal tests. -/
theorem any_congr_mem {l : List Nat} {f g : Nat → Bool}
    (h : ∀ a ∈ l, f a = g a) : l.any f = l.any g := by
  induction l with
  | nil => rfl
  | cons a t ih =>
    rw [List.any_cons, List.any_cons, h a (List.mem_cons_self a t),
      ih (fun a' ha' => h a' (List.mem_cons_of_mem a ha'))]

/-- Effect of one drawBit call: the cell (row, col) is XOR-toggled, VF is
raised to 1 when the cell was on, and nothing else changes. -/
theorem drawBit_spec (c : Chip8) (row col : Nat) :
    (drawBit c row col).MainMemory = c.MainMemory ∧
    (drawBit c row col).I = c.I ∧
    (∀ v, v ≠ 15 → (drawBit c row col).Vx v = c.Vx v) ∧
    (drawBit c row col).Vx 15 = (if c.ScreenState row col = 1 then 1 else c.Vx 15) ∧
    (∀ r k, (drawBit c row col).ScreenState r k =
      if r = row ∧ k = col then c.ScreenState r k ^^^ 1 else c.ScreenState r k) := by
  unfold drawBit
  by_cases h : c.ScreenState row col = 1
  · rw [if_pos h]
    refine ⟨rfl, rfl, ?_, ?_, ?_⟩
    · intro v hv
      simp [updF, hv]
    · simp [updF, h]
    · intro r k
      by_cases hrk : r = row ∧ k = col
      · obtain ⟨h1, h2⟩ := hrk
        subst h1
        subst h2
        simp [upd2]
      · simp [upd2, hrk]
  · rw [if_neg h]
    refine ⟨rfl, rfl, fun v hv => rfl, by rw [if_neg h], ?_⟩
    intro r k
    by_cases hrk : r = row ∧ k = col
    · obtain ⟨h1, h2⟩ := hrk
      subst h1
      subst h2
      simp [upd2]
    · simp [upd2, hrk]

/-- Effect of the inner column loop on a duplicate-free bit list: exactly
the cells of the worked row hit per bitsHit are toggled, VF is raised
exactly when bitsCollide sees an on cell, and nothing else changes. -/
theorem drawSpriteBits_spec (x row pix : Nat) (bits : List Nat) (c : Chip8)
    (hnd : bits.Nodup) :
    (drawSpriteBits x row pix bits c).MainMemory = c.MainMemory ∧
    (drawSpriteBits x row pix bits c).I = c.I ∧
    (∀ v, v ≠ 15 → (drawSpriteBits x row pix bits c).Vx v = c.Vx v) ∧
    (drawSpriteBits x row pix bits c).Vx 15 =
      (if bitsCollide c.ScreenState x row pix bits then 1 else c.Vx 15) ∧
    (∀ r k, (drawSpriteBits x row pix bits c).ScreenState r k =
      if r = row ∧ bitsHit x pix bits k then c.ScreenState r k ^^^ 1
      else c.ScreenState r k) := by
  induction bits generalizing c with
  | nil =>
    refine ⟨rfl, rfl, fun v hv => rfl, ?_, fun r k => ?_⟩
    · show c.Vx 15 = _
      simp [bitsCollide]
    · show c.ScreenState r k = _
      simp [bitsHit]
  | cons i t ih =>
    have hit : i ∉ t := (List.nodup_cons.mp hnd).1
    have hndt : t.Nodup := (List.nodup_cons.mp hnd).2
    simp only [drawSpriteBits]
    by_cases hclip : 64 ≤ x + i
    · rw [if_pos hclip]
      obtain ⟨tM, tI, tReg, tVF, tScr⟩ := ih c hndt
      have hnotlt : ¬ x + i < 64 := by omega
      refine ⟨tM, tI, tReg, ?_, ?_⟩
      · rw [tVF]
        simp [bitsCollide, hnotlt]
      · intro r k
        rw [tScr r k]
        simp [bitsHit, hnotlt]
    · rw [if_neg hclip]
      by_cases hbit : pix &&& (0x80 >>> i) ≠ 0
      · rw [if_pos hbit]
        obtain ⟨bM, bI, bReg, bVF, bScr⟩ := drawBit_spec c row (x + i)
        obtain ⟨tM, tI, tReg, tVF, tScr⟩ := ih (drawBit c row (x + i)) hndt
        have hlt : x + i < 64 := by omega
        have hcol : ∀ i', i' ∈ t → x + i' ≠ x + i := by
          intro i' hi' he
          have : i' = i := by omega
          exact hit (this ▸ hi')
        have hb : (pix &&& (0x80 >>> i) != 0) = true := by
          simp [hbit]
        have hCollEq : bitsCollide (drawBit c row (x + i)).ScreenState x row pix t =
            bitsCollide c.ScreenState x row pix t := by
          unfold bitsCollide
          apply any_congr_mem
          intro a ha
          rw [bScr row (x + a), if_neg (fun hc => hcol a ha hc.2)]
        refine ⟨tM.trans bM, tI.trans bI, ?_, ?_, ?_⟩
        · intro v hv
          rw [tReg v hv, bReg v hv]
        · rw [tVF, hCollEq, bVF]
          have hhead : bitsCollide c.ScreenState x row pix (i :: t) =
              ((c.ScreenState row (x + i) == 1) || bitsCollide c.ScreenState x row pix t) := by
            unfold bitsCollide
            rw [List.any_cons]
            simp [hlt, hb]
          rw [hhead]
          by_cases h1 : bitsCollide c.ScreenState x row pix t
          · simp [h1]
          · by_cases h2 : c.ScreenState row (x + i) = 1 <;> simp [h1, h2]
        · intro r k
          rw [tScr r k]
          have hheadH : bitsHit x pix (i :: t) k = ((k == x + i) || bitsHit x pix t k) := by
            unfold bitsHit
            rw [List.any_cons]
            simp [hlt, hb]
          rw [hheadH]
          by_cases hr : r = row
          · subst hr
            by_cases hk : k = x + i
            · subst hk
              have hTfalse : bitsHit x pix t (x + i) = false := by
                unfold bitsHit
                rw [List.any_eq_false]
                intro a ha
                simp only [Bool.and_eq_true, beq_iff_eq]
                intro hcon
                exact absurd hcon.1.1 (fun he => hcol a ha he.symm)
              simp [hTfalse, bScr]
            · have hkb : (k == x + i) = false := by simp [hk]
              rw [bScr r k, if_neg (show ¬(r = r ∧ k = x + i) from fun hc => hk hc.2)]
              simp [hkb]
          · rw [bScr r k]
            simp [hr]
      · rw [if_neg hbit]
        obtain ⟨tM, tI, tReg, tVF, tScr⟩ := ih c hndt
        have hzero : pix &&& (0x80 >>> i) = 0 := by
          by_contra hc
          exact hbit hc
        refine ⟨tM, tI, tReg, ?_, ?_⟩
        · rw [tVF]
          simp [bitsCollide, hzero]
        · intro r k
          rw [tScr r k]
          simp [bitsHit, hzero]

/-- bitsCollide only reads the screen on its worked row. -/
theorem bitsCollide_congr (s1 s2 : Nat → Nat → Nat) (x row pix : Nat) (bits : List Nat)
    (h : ∀ k, s1 row k = s2 row k) :
    bitsCollide s1 x row pix bits = bitsCollide s2 x row pix bits := by
  unfold bitsCollide
  apply any_congr_mem
  intro a _
  rw [h (x + a)]

/-- Effect of the row loop on a duplicate-free row list whose sprite-byte
reads stay in range: exactly the cells hit per spriteHit are toggled, VF is
raised exactly when spriteCollide sees an on cell, and memory, I and the
other registers are unchanged. -/
theorem drawSpriteRows_spec (x y : Nat) (js : List Nat) (c : Chip8)
    (hb : ∀ j ∈ js, word (c.I + j) < MemSize) (hnd : js.Nodup) :
    ∃ c', drawSpriteRows x y js c = some c' ∧
      c'.MainMemory = c.MainMemory ∧ c'.I = c.I ∧
      (∀ v, v ≠ 15 → c'.Vx v = c.Vx v) ∧
      c'.Vx 15 = (if spriteCollide c.MainMemory c.I c.ScreenState x y js then 1 else c.Vx 15) ∧
      (∀ r k, c'.ScreenState r k =
        if spriteHit c.MainMemory c.I x y js r k then c.ScreenState r k ^^^ 1
        else c.ScreenState r k) := by
  induction js generalizing c with
  | nil =>
    refine ⟨c, rfl, rfl, rfl, fun v hv => rfl, ?_, fun r k => ?_⟩
    · simp [spriteCollide]
    · simp [spriteHit]
  | cons j t ih =>
    have hjt : j ∉ t := (List.nodup_cons.mp hnd).1
    have hndt : t.Nodup := (List.nodup_cons.mp hnd).2
    have hj : word (c.I + j) < MemSize := hb j (List.mem_cons_self j t)
    have hbt : ∀ j' ∈ t, word (c.I + j') < MemSize :=
      fun j' hj' => hb j' (List.mem_cons_of_mem j hj')
    have hstep : drawSpriteRows x y (j :: t) c =
        drawSpriteRows x y t (if 32 ≤ y + j then c
          else drawSpriteBits x (y + j) (c.MainMemory (word (c.I + j))) bitIdx c) := by
      simp only [drawSpriteRows, memRead, if_pos hj, Option.some_bind]
      rfl
    by_cases hclip : 32 ≤ y + j
    · rw [if_pos hclip] at hstep
      obtain ⟨c', he, hM, hI, hReg, hVF, hScr⟩ := ih c hbt hndt
      have hnotlt : ¬ y + j < 32 := by omega
      refine ⟨c', hstep.trans he, hM, hI, hReg, ?_, ?_⟩
      · rw [hVF]
        simp [spriteCollide, hnotlt]
      · intro r k
        rw [hScr r k]
        simp [spriteHit, hnotlt]
    · rw [if_neg hclip] at hstep
      have hlt : y + j < 32 := by omega
      obtain ⟨bM, bI, bReg, bVF, bScr⟩ :=
        drawSpriteBits_spec x (y + j) (c.MainMemory (word (c.I + j))) bitIdx c (by decide)
      have hbt1 : ∀ j' ∈ t,
          word ((drawSpriteBits x (y + j) (c.MainMemory (word (c.I + j))) bitIdx c).I + j') < MemSize := by
        intro j' hj'
        rw [bI]
        exact hbt j' hj'
      obtain ⟨c', he, hM, hI, hReg, hVF, hScr⟩ :=
        ih (drawSpriteBits x (y + j) (c.MainMemory (word (c.I + j))) bitIdx c) hbt1 hndt
      have hrowne : ∀ a ∈ t, y + a ≠ y + j := by
        intro a ha he'
        have : a = j := by omega
        exact hjt (this ▸ ha)
      have hrowEq : ∀ a ∈ t, ∀ k,
          (drawSpriteBits x (y + j) (c.MainMemory (word (c.I + j))) bitIdx c).ScreenState (y + a) k =
            c.ScreenState (y + a) k := by
        intro a ha k
        rw [bScr (y + a) k]
        exact if_neg (fun hc => hrowne a ha hc.1)
      have hCollEq :
          spriteCollide c.MainMemory c.I
            (drawSpriteBits x (y + j) (c.MainMemory (word (c.I + j))) bitIdx c).ScreenState x y t =
          spriteCollide c.MainMemory c.I c.ScreenState x y t := by
        unfold spriteCollide
        apply any_congr_mem
        intro a ha
        rw [bitsCollide_congr _ c.ScreenState x (y + a) _ bitIdx (hrowEq a ha)]
      have hheadC : spriteCollide c.MainMemory c.I c.ScreenState x y (j :: t) =
          (bitsCollide c.ScreenState x (y + j) (c.MainMemory (word (c.I + j))) bitIdx ||
            spriteCollide c.MainMemory c.I c.ScreenState x y t) := by
        unfold spriteCollide
        rw [List.any_cons]
        simp [hlt]
      have hheadH : ∀ r k, spriteHit c.MainMemory c.I x y (j :: t) r k =
          ((r == y + j) && bitsHit x (c.MainMemory (word (c.I + j))) bitIdx k ||
            spriteHit c.MainMemory c.I x y t r k) := by
        intro r k
        unfold spriteHit
        rw [List.any_cons]
        simp [hlt, Bool.and_assoc]
      refine ⟨c', hstep.trans he, hM.trans bM, hI.trans bI, ?_, ?_, ?_⟩
      · intro v hv
        rw [hReg v hv, bReg v hv]
      · rw [hVF, bM, bI, hCollEq, bVF, hheadC]
        by_cases h1 : spriteCollide c.MainMemory c.I c.ScreenState x y t
        · simp [h1]
        · by_cases h2 : bitsCollide c.ScreenState x (y + j) (c.MainMemory (word (c.I + j))) bitIdx <;>
            simp [h1, h2]
      · intro r k
        rw [hScr r k, bM, bI, hheadH r k]
        by_cases hr : r = y + j
        · have hrb : (r == y + j) = true := by simp [hr]
          have hTfalse : spriteHit c.MainMemory c.I x y t r k = false := by
            unfold spriteHit
            rw [List.any_eq_false]
            intro a ha
            simp only [Bool.and_eq_true, beq_iff_eq]
            intro hcon
            exact hrowne a ha (hr.symm.trans hcon.1.1).symm
          rw [hTfalse, bScr r k]
          by_cases hbh : bitsHit x (c.MainMemory (word (c.I + j))) bitIdx k = true
          · rw [if_pos (show r = y + j ∧ bitsHit x (c.MainMemory (word (c.I + j))) bitIdx k = true
              from ⟨hr, hbh⟩)]
            simp [hrb, hbh]
          · rw [if_neg (show ¬(r = y + j ∧ bitsHit x (c.MainMemory (word (c.I + j))) bitIdx k = true)
              from fun hc => hbh hc.2)]
            simp [hrb, hbh]
        · have hrb : (r == y + j) = false := by simp [hr]
          rw [bScr r k, if_neg (show ¬(r = y + j ∧ bitsHit x (c.MainMemory (word (c.I + j))) bitIdx k = true)
            from fun hc => hr hc.1)]
          simp [hrb]

/-- Effect of a full DXYN blit when every sprite-byte read is in range:
VF becomes exactly the collision bit, the hit cells toggle, and memory, I
and the other registers survive. -/
theorem drawSprite_spec (c : Chip8) (op x y h : Nat)
    (hx : c.Vx ((op &&& 0x0F00) >>> 8) % 64 = x)
    (hy : c.Vx ((op &&& 0x00F0) >>> 4) % 32 = y)
    (hh : op &&& 0x000F = h)
    (hb : ∀ j ∈ List.range h, word (c.I + j) < MemSize) :
    ∃ c', drawSprite c op = some c' ∧
      c'.MainMemory = c.MainMemory ∧ c'.I = c.I ∧
      (∀ v, v ≠ 15 → c'.Vx v = c.Vx v) ∧
      c'.Vx 15 = (if spriteCollide c.MainMemory c.I c.ScreenState x y (List.range h) then 1 else 0) ∧
      (∀ r k, c'.ScreenState r k =
        if spriteHit c.MainMemory c.I x y (List.range h) r k then c.ScreenState r k ^^^ 1
        else c.ScreenState r k) := by
  simp only [drawSprite]
  rw [hx, hy, hh]
  obtain ⟨c', he, hM, hI, hReg, hVF, hScr⟩ :=
    drawSpriteRows_spec x y (List.range h) { c with Vx := updF c.Vx 15 0 } hb
      (List.nodup_range h)
  refine ⟨c', he, hM, hI, ?_, ?_, hScr⟩
  · intro v hv
    rw [hReg v hv]
    simp [updF, hv]
  · rw [hVF]
    simp [updF]

/-- C7 (amended): executing DRW Vx,Vy,n twice in succession with position
register indices other than 0xF and all n sprite bytes inside the memory
array restores the Display Buffer to its pre-draw state; and whenever the
first draw turned at least one pixel on, the second draw sets VF = 1. -/
theorem C7_draw_twice_restores (c : Chip8) (op X Y : Nat)
    (hX : (op &&& 0x0F00) >>> 8 = X) (hY : (op &&& 0x00F0) >>> 4 = Y)
    (hXF : X ≠ 0xF) (hYF : Y ≠ 0xF)
    (hb : c.I + (op &&& 0x000F) ≤ MemSize) :
    ∃ c1 c2, drawSprite c op = some c1 ∧ drawSprite c1 op = some c2 ∧
      (∀ r k, c2.ScreenState r k = c.ScreenState r k) ∧
      ((∃ r k, c1.ScreenState r k = 1 ∧ c.ScreenState r k = 0) → c2.Vx 0xF = 1) := by
  set h := op &&& 0x000F with hh
  set x := c.Vx X % 64 with hxd
  set y := c.Vx Y % 32 with hyd
  have hb1 : ∀ j ∈ List.range h, word (c.I + j) < MemSize := by
    intro j hj
    have hjh := List.mem_range.mp hj
    have hw : word (c.I + j) ≤ c.I + j := Nat.mod_le _ _
    omega
  obtain ⟨c1, he1, h1M, h1I, h1Reg, h1VF, h1Scr⟩ :=
    drawSprite_spec c op x y h (by rw [hX]) (by rw [hY]) rfl hb1
  have hx2 : c1.Vx ((op &&& 0x0F00) >>> 8) % 64 = x := by
    rw [hX, h1Reg X hXF]
  have hy2 : c1.Vx ((op &&& 0x00F0) >>> 4) % 32 = y := by
    rw [hY, h1Reg Y hYF]
  have hb2 : ∀ j ∈ List.range h, word (c1.I + j) < MemSize := by
    intro j hj
    rw [h1I]
    exact hb1 j hj
  obtain ⟨c2, he2, h2M, h2I, h2Reg, h2VF, h2Scr⟩ :=
    drawSprite_spec c1 op x y h hx2 hy2 rfl hb2
  refine ⟨c1, c2, he1, he2, ?_, ?_⟩
  · intro r k
    rw [h2Scr r k, h1M, h1I, h1Scr r k]
    by_cases hhit : spriteHit c.MainMemory c.I x y (List.range h) r k = true
    · simp [hhit, Nat.xor_assoc]
    · simp [hhit]
  · rintro ⟨r, k, hc1, hc0⟩
    have hhit : spriteHit c.MainMemory c.I x y (List.range h) r k = true := by
      by_contra hn
      have hsame := h1Scr r k
      rw [if_neg hn] at hsame
      rw [hsame, hc0] at hc1
      exact absurd hc1 (by decide)
    rw [h2VF]
    have hcol2 : spriteCollide c1.MainMemory c1.I c1.ScreenState x y (List.range h) = true := by
      rw [h1M, h1I]
      unfold spriteHit at hhit
      rw [List.any_eq_true] at hhit
      obtain ⟨j, hjmem, hj⟩ := hhit
      simp only [Bool.and_eq_true, beq_iff_eq] at hj
      obtain ⟨⟨hrj, hyj⟩, hbits⟩ := hj
      unfold bitsHit at hbits
      rw [List.any_eq_true] at hbits
      obtain ⟨i, himem, hi⟩ := hbits
      simp only [Bool.and_eq_true, beq_iff_eq] at hi
      obtain ⟨⟨hki, hxi⟩, hpix⟩ := hi
      unfold spriteCollide
      rw [List.any_eq_true]
      refine ⟨j, hjmem, ?_⟩
      simp only [Bool.and_eq_true]
      refine ⟨hyj, ?_⟩
      unfold bitsCollide
      rw [List.any_eq_true]
      refine ⟨i, himem, ?_⟩
      simp only [Bool.and_eq_true]
      refine ⟨⟨hxi, hpix⟩, ?_⟩
      rw [← hrj, ← hki]
      simp [hc1]
    rw [hcol2]
    simp

/-- A last-match fold over a list with no matching element keeps its
initial value — the shape of the Go key-scan loop in setVxToKeyPress. -/
theorem foldl_lastRel_of_none (rel : Nat → Bool) (l : List Nat) (v : Nat)
    (h : ∀ i ∈ l, rel i = false) :
    l.foldl (fun acc i => if rel i then i else acc) v = v := by
  induction l generalizing v with
  | nil => rfl
  | cons a t ih =>
    have ha : rel a = false := h a (List.mem_cons_self a t)
    rw [List.foldl_cons, if_neg (by simp [ha])]
    exact ih v (fun i hi => h i (List.mem_cons_of_mem a hi))

/-- A last-match fold over a list containing a matching element ends on a
matching element of the list. -/
theorem foldl_lastRel_mem (rel : Nat → Bool) (l : List Nat) (v : Nat)
    (h : ∃ i ∈ l, rel i = true) :
    rel (l.foldl (fun acc i => if rel i then i else acc) v) = true ∧
    l.foldl (fun acc i => if rel i then i else acc) v ∈ l := by
  induction l generalizing v with
  | nil => simp at h
  | cons a t ih =>
    rw [List.foldl_cons]
    by_cases ht : ∃ i ∈ t, rel i = true
    · obtain ⟨h1, h2⟩ := ih (if rel a then a else v) ht
      exact ⟨h1, List.mem_cons_of_mem a h2⟩
    · have ha : rel a = true := by
        obtain ⟨i, hi, hri⟩ := h
        rcases List.mem_cons.mp hi with rfl | hit
        · exact hri
        · exact absurd ⟨i, hit, hri⟩ ht
      have hnone : ∀ i ∈ t, rel i = false := by
        intro i hi
        by_contra hne
        exact ht ⟨i, hi, by simpa using hne⟩
      rw [if_pos ha, foldl_lastRel_of_none rel t a hnone]
      exact ⟨ha, List.mem_cons_self a t⟩

/-- When both instruction bytes are inside the memory array, fetch returns
the big-endian word and the state with PC advanced by 2. -/
theorem fetch_spec (c : Chip8) (h : c.PC + 1 < MemSize) :
    fetch c = some (c.MainMemory c.PC * 256 + c.MainMemory (c.PC + 1),
      { c with PC := c.PC + 2 }) := by
  have h0 : c.PC < MemSize := by omega
  have hlt : c.PC + 2 < 65536 := by
    have : MemSize = 4095 := rfl
    omega
  have e0 : word c.PC = c.PC := Nat.mod_eq_of_lt (by omega)
  have e1 : word (c.PC + 1) = c.PC + 1 := Nat.mod_eq_of_lt (by omega)
  have e2 : word (c.PC + 2) = c.PC + 2 := Nat.mod_eq_of_lt hlt
  unfold fetch memRead
  rw [e0, e1, e2, if_pos h0, if_pos h]
  rfl

/-- C10: whenever both instruction bytes are inside the memory array, fetch
returns the big-endian word memory[PC]*256 + memory[PC+1] and the state
with PC advanced by exactly 2, before any instruction executes. -/
theorem C10_fetch_big_endian_pc_plus_2 (c : Chip8) (h : c.PC + 1 < MemSize) :
    fetch c = some (c.MainMemory c.PC * 256 + c.MainMemory (c.PC + 1),
      { c with PC := c.PC + 2 }) :=
  fetch_spec c h

/-- C10 witness: at PC = 0x200 over the bytes 0xF1 0x0A, fetch returns the
word 0xF10A and advances PC to 0x202. -/
theorem C10_fetch_big_endian_pc_plus_2_witness :
    fetch fetchState = some (fetchState.MainMemory fetchState.PC * 256 +
      fetchState.MainMemory (fetchState.PC + 1), { fetchState with PC := fetchState.PC + 2 }) :=
  C10_fetch_big_endian_pc_plus_2 fetchState (by decide)

/-- C9: a cycle on an LD Vx,K instruction (FX0A, in-bounds, with X the
register index of the fetched word) leaves the whole machine state —
including PC — untouched when no key is marked newly released, so the same
instruction re-executes next cycle; once some key is marked newly released,
the cycle assigns a newly-released key's 4-bit code to Vx and PC advances
by the normal 2 exactly once. -/
theorem C9_key_wait_rewind (c : Chip8) (X rnd : Nat)
    (hpc : c.PC + 1 < MemSize)
    (hdec : decode (c.MainMemory c.PC * 256 + c.MainMemory (c.PC + 1)) = Opcode.opcodeFX0A)
    (hX : ((c.MainMemory c.PC * 256 + c.MainMemory (c.PC + 1)) &&& 0x0F00) >>> 8 = X) :
    (keyJustReleasedEmpty c = true → cycle c rnd = some c) ∧
    (keyJustReleasedEmpty c = false →
      ∃ c' k, cycle c rnd = some c' ∧ k < 16 ∧ c.KeyJustReleased k = true ∧
        c'.Vx X = k ∧ c'.PC = c.PC + 2) := by
  have hcy : cycle c rnd =
      some (setVxToKeyPress { c with PC := c.PC + 2 }
        (c.MainMemory c.PC * 256 + c.MainMemory (c.PC + 1))) := by
    unfold cycle
    rw [fetch_spec c hpc]
    show execute { c with PC := c.PC + 2 }
      (decode (c.MainMemory c.PC * 256 + c.MainMemory (c.PC + 1)))
      (c.MainMemory c.PC * 256 + c.MainMemory (c.PC + 1)) rnd = _
    rw [hdec]
    rfl
  constructor
  · intro hk
    rw [hcy]
    have hk1 : keyJustReleasedEmpty { c with PC := c.PC + 2 } = true := hk
    simp only [setVxToKeyPress, hk1, if_true]
    have hw : word (c.PC + 2 + 65534) = c.PC := by
      have : MemSize = 4095 := rfl
      unfold word
      omega
    show some { c with PC := word (c.PC + 2 + 65534) } = some c
    rw [hw]
  · intro hk
    have hex : ∃ i ∈ List.range 16, c.KeyJustReleased i = true := by
      by_contra hno
      push_neg at hno
      have hall : keyJustReleasedEmpty c = true := by
        unfold keyJustReleasedEmpty
        rw [List.all_eq_true]
        intro i hi
        have := hno i hi
        simp only [ne_eq, Bool.not_eq_true] at this
        simp [this]
      rw [hall] at hk
      cases hk
    obtain ⟨hrel, hmem⟩ := foldl_lastRel_mem c.KeyJustReleased (List.range 16) (c.Vx X) hex
    rw [hcy]
    have hk1 : keyJustReleasedEmpty { c with PC := c.PC + 2 } = false := hk
    simp only [setVxToKeyPress, hk1, Bool.false_eq_true, if_false, hX]
    refine ⟨_, _, rfl, List.mem_range.mp hmem, hrel, ?_, rfl⟩
    simp [updF]

/-- C7 counterexample: the claim demands VF = 1 on the second of two
identical draws for every sprite, but DRW V0,V0,0 (opcode 0xD000, height 0)
draws no pixel: drawing it twice from the all-off state leaves the display
unchanged and the second draw reports VF = 0, not 1. -/
theorem C7_second_draw_vf_counterexample :
    ∃ c1 c2, drawSprite zeroChip8 0xD000 = some c1 ∧ drawSprite c1 0xD000 = some c2 ∧
      c2.Vx 0xF = 0 :=
  ⟨_, _, rfl, rfl, rfl⟩

/-- C7 witness: the one-row sprite 0x80 at I = 0 drawn twice at (V0, V1) =
(0, 0) restores the display, and the second draw collides. -/
theorem C7_draw_twice_restores_witness :
    ∃ c1 c2, drawSprite drawState 0xD011 = some c1 ∧ drawSprite c1 0xD011 = some c2 ∧
      (∀ r k, c2.ScreenState r k = drawState.ScreenState r k) ∧
      ((∃ r k, c1.ScreenState r k = 1 ∧ drawState.ScreenState r k = 0) → c2.Vx 0xF = 1) :=
  C7_draw_twice_restores drawState 0xD011 0 1 (by decide) (by decide) (by decide)
    (by decide) (by decide)

/-- C9 witness: LD V1,K fetched at PC = 0x200 with key 3 newly released
assigns V1 = 3 and advances PC to 0x202 in one cycle. -/
theorem C9_key_wait_rewind_witness :
    (keyJustReleasedEmpty keyWaitState = true → cycle keyWaitState 0 = some keyWaitState) ∧
    (keyJustReleasedEmpty keyWaitState = false →
      ∃ c' k, cycle keyWaitState 0 = some c' ∧ k < 16 ∧
        keyWaitState.KeyJustReleased k = true ∧
        c'.Vx 1 = k ∧ c'.PC = keyWaitState.PC + 2) :=
  C9_key_wait_rewind keyWaitState 1 0 (by decide) (by decide) (by decide)

end Chip8Go
